import Mathlib

/-!
Shallow embedding of the PyLab-Homework-Leaderboard pipeline.

ETL (src/etl/transform.py): a dataframe row carries a username and the two
numeric columns `lecture` and `score`.  A numeric cell is modelled as
`Option ℤ`: `some q` is the value obtained by pandas' numeric parse
(the score data of this repository is integral) and `none` is the NaN
that `pd.to_numeric(errors="coerce")` produces when the cell does not
parse.  With that representation the column coercions of
`clean_data` keep each cell unchanged, `str.strip` becomes `stripStr`,
and the NaN-skipping aggregations (`nunique`, `sum`) become `filterMap`.

App (src/app/app_csv.py): bar geometry, report layout and the student
search are modelled over integers and rationals (reportlab's A4 height
is the exact rational 297mm times 72/25.4 points per mm).
-/

/-- A dataframe row of the ETL: `username`, `lecture`, `score`.  Numeric
cells are the result of pandas numeric parsing, `none` modelling NaN. -/
structure Row where
  username : String
  lecture : Option ℤ
  score : Option ℤ
deriving DecidableEq

/-- Remove leading whitespace characters from a character list. -/
def dropLeadingWS : List Char → List Char
  | [] => []
  | c :: cs => if c.isWhitespace then dropLeadingWS cs else c :: cs

/-- Python `str.strip()`: remove leading and trailing whitespace.
Implemented over the character list of the string so that the kernel
can evaluate it. -/
def stripStr (s : String) : String :=
  ⟨(dropLeadingWS (dropLeadingWS s.data).reverse).reverse⟩

/-- Per-row effect of `clean_data` (transform.py lines 30-40):
`pd.to_numeric(errors="coerce")` keeps a parsed cell and turns an
unparseable one into NaN, which is the identity on the `Option ℤ`
representation; `astype(str).str.strip()` strips the username.
No row is dropped by `clean_data`. -/
def clean_row (r : Row) : Row :=
  ⟨stripStr r.username, r.lecture, r.score⟩

/-- Column-wise `clean_data` acts independently on each row. -/
def clean_data (df : List Row) : List Row :=
  df.map clean_row

/-- Dedup key used by `drop_duplicates(subset=["username", "lecture"])`.
pandas treats NaN keys as equal to each other, matching `Option ℤ`
equality. -/
def dedupKey (r : Row) : String × Option ℤ :=
  (r.username, r.lecture)

/-- transform.py lines 46-52: `drop_duplicates(subset=["username",
"lecture"], keep="last")` keeps, for every key, the last row bearing it,
in the original relative order of the kept rows. -/
def remove_duplicates : List Row → List Row
  | [] => []
  | r :: rs =>
    if ∃ s ∈ rs, dedupKey s = dedupKey r then remove_duplicates rs
    else r :: remove_duplicates rs

/-- Rows of one `groupby("username")` group. -/
def byUser (df : List Row) (u : String) : List Row :=
  df.filter (fun r => r.username = u)

/-- `lectures=("lecture", "nunique")`: pandas `nunique` counts distinct
non-NaN values. -/
def lectures_nunique (df : List Row) (u : String) : ℕ :=
  ((byUser df u).filterMap Row.lecture).dedup.length

/-- `total_score=("score", "sum")`: pandas sum skips NaN and returns 0 on
an all-NaN or empty column. -/
def total_score_sum (df : List Row) (u : String) : ℤ :=
  ((byUser df u).filterMap Row.score).sum

/-- An aggregated (pre-rating) leaderboard entry. -/
structure Entry where
  username : String
  lectures : ℕ
  total_score : ℤ
deriving DecidableEq

/-- Lexicographic code-point comparison of character lists: Python
string comparison, the order in which pandas sorts object group keys. -/
def lexLe : List Char → List Char → Bool
  | [], _ => true
  | _ :: _, [] => false
  | a :: as, b :: bs => if a = b then lexLe as bs else decide (a < b)

/-- Python string order on usernames. -/
def pyLe (s t : String) : Prop :=
  lexLe s.data t.data = true

instance : DecidableRel pyLe :=
  fun s t => inferInstanceAs (Decidable (lexLe s.data t.data = true))

/-- Group keys of `df.groupby("username")`: pandas emits the groups with
`sort=True` (the default), i.e. in ascending key order. -/
def usernames_sorted (df : List Row) : List String :=
  List.insertionSort pyLe (df.map Row.username).dedup

/-- transform.py lines 59-66: one aggregated entry per distinct username,
in ascending username order. -/
def groupby_username (df : List Row) : List Entry :=
  (usernames_sorted df).map (fun u => ⟨u, lectures_nunique df u, total_score_sum df u⟩)

/-- Comparison key of `sort_values("total_score", ...)`. -/
def scoreLE (a b : Entry) : Prop :=
  a.total_score ≤ b.total_score

instance : DecidableRel scoreLE :=
  fun a b => inferInstanceAs (Decidable (a.total_score ≤ b.total_score))

/-- transform.py line 68: `sort_values("total_score", ascending=False)`.
pandas computes a numpy ascending argsort with the default
`kind="quicksort"` and reverses it for a descending sort.  numpy's
quicksort is introsort: below its 16-element threshold it is plain
insertion sort (stable), so for frames with fewer than 16 rows this
definition is the program's sort exactly; for larger frames introsort
is unstable and only sortedness (a descending permutation) is
guaranteed, so conclusions that depend on the order of score ties are
stated only for frames below the threshold, and every other use of
this definition relies only on sortedness and permutation facts. -/
def sort_values_desc (l : List Entry) : List Entry :=
  (List.insertionSort scoreLE l).reverse

/-- A row of the persisted leaderboard artifact.  The first column is
called `rating` in the code (transform.py lines 70-72). -/
structure LBRow where
  rating : ℕ
  username : String
  lectures : ℕ
  total_score : ℤ
deriving DecidableEq

/-- transform.py line 70: `leaderboard["rating"] = range(1, len + 1)`,
assigned in the sorted row order. -/
def assignRatings : ℕ → List Entry → List LBRow
  | _, [] => []
  | i, e :: rest => ⟨i, e.username, e.lectures, e.total_score⟩ :: assignRatings (i + 1) rest

/-- transform.py lines 58-76. -/
def build_leaderboard (df : List Row) : List LBRow :=
  assignRatings 1 (sort_values_desc (groupby_username df))

/-- Column order selected at transform.py line 72 and written to
`output/leaderboard.csv`. -/
def leaderboard_columns : List String :=
  ["rating", "username", "lectures", "total_score"]

/-- transform.py lines 11-24: each CSV file yields one frame; the frames
are concatenated.  `pd.concat` raises `ValueError("No objects to
concatenate")` when the list of frames is empty, i.e. when the input
directory holds no CSV file. -/
def load_all_csv (dfs : List (List Row)) : Except String (List Row) :=
  if dfs.isEmpty then Except.error "no objects to concatenate"
  else Except.ok dfs.flatten

/-- transform.py lines 82-86: the batch pipeline applied to already
loaded rows. -/
def pipeline (df : List Row) : List LBRow :=
  build_leaderboard (remove_duplicates (clean_data df))

/-- app_csv.py lines 44-48: `int(x)` with every failure mapped to the
default 0. -/
def safe_int (x : Option ℤ) : ℤ :=
  x.getD 0

/-- app_csv.py lines 159-162: `pd.to_numeric(errors="coerce").fillna(0)
.astype(int)` over a column: every cell that fails numeric coercion
becomes 0. -/
def to_numeric_fillna0_astype_int (col : List (Option ℤ)) : List ℤ :=
  col.map (fun v => v.getD 0)

/-- `max(0, min(100, int(score)))`, shared by all bar renderers. -/
def clamp100 (score : ℤ) : ℤ :=
  max 0 (min 100 score)

/-- app_csv.py line 72: the dashboard bar track is 34 blocks wide. -/
def total_blocks : ℕ :=
  34

/-- app_csv.py lines 72-82, `build_solid_bar`: filled blocks are
`int(round(score / 100 * total_blocks))`.  Python `round` is
round-half-to-even; for integer scores in `[0, 100]` the only half-way
products arise from the exactly representable 0.25 and 0.75, so the
float computation agrees with exact rational rounding. -/
def build_solid_bar_filled (score : ℤ) : ℕ :=
  let n := total_blocks * (clamp100 score).toNat
  if n % 100 = 50 then (if n / 100 % 2 = 0 then n / 100 else n / 100 + 1)
  else (n + 50) / 100

/-- app_csv.py line 296: the PNG bar track is 520 pixels wide. -/
def bar_w_png : ℕ :=
  520

/-- app_csv.py line 312: `filled_w = int(bar_w * (score / 100))` -
`int()` truncates toward zero, it does not round.  For integer scores in
`[0, 100]` the float product never falls on the wrong side of an
integer, so truncation equals exact integer division. -/
def png_filled_w (score : ℤ) : ℕ :=
  bar_w_png * (clamp100 score).toNat / 100

/-- app_csv.py line 270: the PNG canvas is a fixed 850 x 1200 image. -/
def png_H : ℕ :=
  1200

/-- Vertical position of the i-th per-lecture row in the PNG report:
the header block ends at y = 250 (50 + 55 + 30 + 30 + 50 + 35) and each
row advances `row_h = 42`.  There is no bound check in the loop. -/
def png_row_y (i : ℕ) : ℕ :=
  250 + 42 * i

/-- A PNG row is (at least partly) inside the canvas iff its top
coordinate is above the bottom edge; PIL silently clips everything
drawn outside the image. -/
def png_row_visible (i : ℕ) : Prop :=
  png_row_y i < png_H

instance : DecidablePred png_row_visible :=
  fun i => inferInstanceAs (Decidable (png_row_y i < png_H))

/-- reportlab A4 page height in points: 297mm at 72/25.4 points per mm,
exactly 106920/127. -/
def page_h : ℚ :=
  106920 / 127

/-- Vertical cursor before the first per-lecture PDF row: the header
consumes 70 + 30 + 35 + 18 points (app_csv.py lines 333-348). -/
def pdf_y0 : ℚ :=
  page_h - 153

/-- app_csv.py lines 381-386: after drawing a row the cursor drops by
`row_h = 24` and, when it passes below 70, `showPage()` starts a new
page and the cursor resets to `page_h - 70`. -/
def pdfStep (s : ℕ × ℚ) : ℕ × ℚ :=
  if s.2 - 24 < 70 then (s.1 + 1, page_h - 70) else (s.1, s.2 - 24)

/-- The (page, y) position at which each successive per-lecture PDF row
is drawn, starting from state `s`. -/
def pdfRowPositions : ℕ → ℕ × ℚ → List (ℕ × ℚ)
  | 0, _ => []
  | n + 1, s => s :: pdfRowPositions n (pdfStep s)

/-- Positions of the n per-lecture rows of the PDF report
(app_csv.py lines 322-391). -/
def generate_student_report_pdf_rows (n : ℕ) : List (ℕ × ℚ) :=
  pdfRowPositions n (0, pdf_y0)

/-- A leaderboard row as the app sees it after the coercions of
app_csv.py lines 159-171 (numeric columns forced to int). -/
structure AppRow where
  rating : ℤ
  username : String
  lectures : ℤ
  total_score : ℤ
deriving DecidableEq

/-- Lower-cased character list of a string (case-insensitive matching). -/
def lowerChars (s : String) : List Char :=
  s.data.map Char.toLower

/-- Whether the second list is an initial segment of the first. -/
def startsWithL : List Char → List Char → Bool
  | _, [] => true
  | [], _ :: _ => false
  | a :: hs, b :: ps => a == b && startsWithL hs ps

/-- Whether the second list occurs contiguously inside the first. -/
def containsSub : List Char → List Char → Bool
  | [], ps => ps.isEmpty
  | a :: hs, ps => startsWithL (a :: hs) ps || containsSub hs ps

/-- One regex pattern character against one text character: the `.`
metacharacter matches any character, every other pattern character
only itself.  This is Python `re` semantics for patterns built from
literal characters and dots; the remaining regex constructs are
outside the model and excluded by hypothesis where it matters. -/
def charMatches (p c : Char) : Bool :=
  p == '.' || p == c

/-- Whether the regex pattern (second list) matches a prefix of the
text (first list). -/
def startsWithRe : List Char → List Char → Bool
  | _, [] => true
  | [], _ :: _ => false
  | c :: hs, p :: ps => charMatches p c && startsWithRe hs ps

/-- Whether the regex pattern matches anywhere inside the text, as
`re.search` does. -/
def containsRe : List Char → List Char → Bool
  | [], ps => ps.isEmpty
  | c :: hs, ps => startsWithRe (c :: hs) ps || containsRe hs ps

/-- The characters Python `re` treats specially in a pattern. -/
def regexMetachars : List Char :=
  ['.', '*', '+', '?', '^', '$', '(', ')', '[', ']', '\x7b', '\x7d', '|', '\\']

/-- app_csv.py lines 196-200: `Series.str.contains(pat, case=False,
na=False)` - the pattern is a regular expression (`regex=True` is the
pandas default), matched case-insensitively anywhere in the username.
Modelled for patterns of literal characters and the `.` wildcard. -/
def str_contains_ci (hay pat : String) : Bool :=
  containsRe (lowerChars hay) (lowerChars pat)

/-- The matching notion used by the claim's own words: plain
case-insensitive substring containment of the query in the username.
Stated separately from `str_contains_ci` (the code's regex matching)
so that the two can be compared. -/
def str_substring_ci (hay pat : String) : Bool :=
  containsSub (lowerChars hay) (lowerChars pat)

/-- The rows of `matches` (app_csv.py lines 196-200), in dataframe
order. -/
def search_matches (df : List AppRow) (query : String) : List AppRow :=
  df.filter (fun r => str_contains_ci r.username (stripStr query))

/-- app_csv.py lines 195-205: nothing happens on an all-whitespace
query; otherwise the selected student is `matches.iloc[0]`, the first
matching row of the (rating-sorted) dataframe. -/
def search_student (df : List AppRow) (query : String) : Option AppRow :=
  if stripStr query = "" then none else (search_matches df query).head?

/-- Python `round` on an exact rational: round half to even. -/
def roundHalfEvenQ (q : ℚ) : ℤ :=
  let f := ⌊q⌋
  let r := q - f
  if r < 1 / 2 then f
  else if 1 / 2 < r then f + 1
  else if f % 2 = 0 then f else f + 1

/-- Python `round(x, 2)`. -/
def round2 (q : ℚ) : ℚ :=
  roundHalfEvenQ (q * 100) / 100

/-- The student profile KPIs (app_csv.py lines 206-210). -/
structure StudentView where
  username : String
  total_score : ℤ
  lectures_passed : ℤ
  avg_score : ℚ
deriving DecidableEq

/-- KPIs derived from the selected leaderboard row: both report
generators are invoked with exactly these values. -/
def student_view (r : AppRow) : StudentView :=
  ⟨r.username, r.total_score, r.lectures,
    round2 ((r.total_score : ℚ) / ((max r.lectures 1 : ℤ) : ℚ))⟩

/-- The profile section as a function of the dataframe and the query. -/
def search_section (df : List AppRow) (query : String) : Option StudentView :=
  (search_student df query).map student_view

/-- Row order of the app dataframe after the sort of app_csv.py lines
165-171: ascending rating. -/
def ratingLE (a b : AppRow) : Prop :=
  a.rating ≤ b.rating

/-- The dedup scenario input of the spec:
(alice,1,80), (bob,1,90), (alice,1,85). -/
def exScenario : List Row :=
  [⟨"alice", some 1, some 80⟩, ⟨"bob", some 1, some 90⟩, ⟨"alice", some 1, some 85⟩]

/-- Leaderboard dataframe of the search example, rating-ascending. -/
def exSearch : List AppRow :=
  [⟨1, "Anna", 3, 250⟩, ⟨2, "anatoly", 2, 180⟩, ⟨3, "bob", 1, 90⟩]

/-- Leaderboard dataframe on which regex matching and substring
matching of the query "j.smith" select different rows. -/
def exRe : List AppRow :=
  [⟨1, "jxsmith", 3, 250⟩, ⟨2, "j.smith", 2, 180⟩, ⟨3, "j.smithy", 1, 90⟩]

theorem mem_of_mem_remove_duplicates {l : List Row} {r : Row}
    (h : r ∈ remove_duplicates l) : r ∈ l := by
  induction l with
  | nil => simp [remove_duplicates] at h
  | cons a t ih =>
    by_cases hd : ∃ s ∈ t, dedupKey s = dedupKey a
    · exact List.mem_cons_of_mem _ (ih (by simpa [remove_duplicates, hd] using h))
    · rcases (by simpa [remove_duplicates, hd] using h : r = a ∨ r ∈ remove_duplicates t) with
        h1 | h1
      · exact h1 ▸ List.mem_cons_self _ _
      · exact List.mem_cons_of_mem _ (ih h1)

theorem getLast?_cons_of_ne_nil {α : Type} {xs : List α} (a : α) (h : xs ≠ []) :
    (a :: xs).getLast? = xs.getLast? := by
  cases xs with
  | nil => exact absurd rfl h
  | cons b t => exact List.getLast?_cons_cons

theorem remove_duplicates_filter (k : String × Option ℤ) :
    ∀ l : List Row,
      (remove_duplicates l).filter (fun r => dedupKey r = k)
        = ((l.filter (fun r => dedupKey r = k)).getLast?).toList := by
  intro l
  induction l with
  | nil => simp [remove_duplicates]
  | cons a t ih =>
    by_cases hd : ∃ s ∈ t, dedupKey s = dedupKey a
    · have hrd : remove_duplicates (a :: t) = remove_duplicates t := by
        simp only [remove_duplicates, if_pos hd]
      by_cases hk : dedupKey a = k
      · obtain ⟨s, hs, hsk⟩ := hd
        have hmem : s ∈ t.filter (fun r => dedupKey r = k) :=
          List.mem_filter.2 ⟨hs, by simp [hsk, hk]⟩
        have hne : t.filter (fun r => dedupKey r = k) ≠ [] := List.ne_nil_of_mem hmem
        rw [hrd, ih, List.filter_cons, if_pos (by simp [hk]), getLast?_cons_of_ne_nil _ hne]
      · rw [hrd, ih, List.filter_cons, if_neg (by simp [hk])]
    · have hrd : remove_duplicates (a :: t) = a :: remove_duplicates t := by
        simp only [remove_duplicates, if_neg hd]
      by_cases hk : dedupKey a = k
      · have hnone : ∀ s ∈ t, ¬dedupKey s = k := fun s hs hsk => hd ⟨s, hs, by rw [hsk, hk]⟩
        have h1 : t.filter (fun r => dedupKey r = k) = [] := by
          rw [List.filter_eq_nil_iff]; intro s hs; simpa using hnone s hs
        have h2 : (remove_duplicates t).filter (fun r => dedupKey r = k) = [] := by
          rw [List.filter_eq_nil_iff]; intro s hs
          simpa using hnone s (mem_of_mem_remove_duplicates hs)
        rw [hrd, List.filter_cons, List.filter_cons, if_pos (by simp [hk]),
          if_pos (by simp [hk]), h1, h2]
        simp
      · rw [hrd, List.filter_cons, List.filter_cons, if_neg (by simp [hk]),
          if_neg (by simp [hk]), ih]

/-- Claim C1: the claim says normalization drops rows with unparseable
score or lecture and rows with an empty trimmed username; in the code
`clean_data` drops nothing: the row whose username is a single space and
whose numeric cells both fail to parse survives normalization. -/
theorem c1_counterexample :
    clean_data [⟨" ", none, none⟩] ≠ ([] : List Row) ∧
      clean_data [⟨" ", none, none⟩] = [⟨"", none, none⟩] := by
  constructor
  · decide
  · decide

/-- Claim C1 (amended): normalization drops no row at all: the output
has the same length as the input and the i-th output row is the i-th
input row with its username trimmed and its numeric cells carrying the
parse result (NaN on failure), in the same relative order. -/
theorem c1_amended_rows_preserved :
    ∀ df : List Row,
      (clean_data df).length = df.length ∧
        ∀ i : ℕ, (clean_data df)[i]? = df[i]?.map clean_row := by
  intro df
  exact ⟨by simp [clean_data], fun i => by simp [clean_data]⟩

/-- Claim C2: for every key, deduplication keeps exactly the last row of
the input bearing that key (the filtered survivor list is exactly the
last-ingested matching row), and the spec scenario
(alice,1,80), (bob,1,90), (alice,1,85) produces the leaderboard
rank 1: bob with 90, rank 2: alice with 85. -/
theorem c2_last_write_wins :
    (∀ (df : List Row) (k : String × Option ℤ),
        (remove_duplicates df).filter (fun r => dedupKey r = k)
          = ((df.filter (fun r => dedupKey r = k)).getLast?).toList) ∧
      pipeline exScenario = [⟨1, "bob", 1, 90⟩, ⟨2, "alice", 1, 85⟩] :=
  ⟨fun df k => remove_duplicates_filter k df, by decide⟩

/-- Claim C6: with no CSV file in the input directory the pipeline does
not produce an empty leaderboard: `pd.concat` on the empty list of
frames raises, so loading fails; a single empty frame, by contrast,
concatenates fine. -/
theorem c6_empty_input_error :
    load_all_csv [] = Except.error "no objects to concatenate" ∧
      load_all_csv [[]] = Except.ok [] :=
  ⟨rfl, rfl⟩

/-- Claim C9: a lectures or total_score cell that fails numeric coercion
is displayed as 0: the app coerces the column with fillna(0), making a
failed parse indistinguishable from a genuine 0, and safe_int maps every
failure to its default 0. -/
theorem c9_counterexample :
    to_numeric_fillna0_astype_int [none] = [0] ∧
      to_numeric_fillna0_astype_int [none] = to_numeric_fillna0_astype_int [some 0] ∧
      safe_int none = 0 :=
  ⟨rfl, rfl, rfl⟩

/-- Claim C9 (amended): parse failures in the lectures and total_score
columns are silently converted to the default 0 by
`to_numeric(errors="coerce").fillna(0)` and by `safe_int`; successfully
parsed values pass through unchanged. -/
theorem c9_amended_fillna_zero :
    (∀ n : ℤ, safe_int (some n) = n) ∧
      safe_int none = 0 ∧
      (∀ col : List (Option ℤ),
        (to_numeric_fillna0_astype_int col).length = col.length) ∧
      to_numeric_fillna0_astype_int [some 7, none, some 3] = [7, 0, 3] :=
  ⟨fun n => rfl, rfl, fun col => by simp [to_numeric_fillna0_astype_int], rfl⟩

theorem lexLe_total : ∀ as bs : List Char, lexLe as bs = true ∨ lexLe bs as = true := by
  intro as
  induction as with
  | nil => intro bs; exact Or.inl rfl
  | cons a as ih =>
    intro bs
    cases bs with
    | nil => exact Or.inr rfl
    | cons b bs =>
      by_cases hab : a = b
      · subst hab
        rcases ih bs with h | h
        · exact Or.inl (by simp [lexLe, h])
        · exact Or.inr (by simp [lexLe, h])
      · rcases Ne.lt_or_lt hab with h | h
        · exact Or.inl (by simp [lexLe, hab, h])
        · exact Or.inr (by simp [lexLe, Ne.symm hab, h])

theorem lexLe_trans :
    ∀ as bs cs : List Char, lexLe as bs = true → lexLe bs cs = true → lexLe as cs = true := by
  intro as
  induction as with
  | nil => intro bs cs h1 h2; rfl
  | cons a as ih =>
    intro bs cs h1 h2
    cases bs with
    | nil => simp [lexLe] at h1
    | cons b bs =>
      cases cs with
      | nil => simp [lexLe] at h2
      | cons c cs =>
        by_cases hab : a = b
        · subst hab
          by_cases hbc : a = c
          · subst hbc
            simp only [lexLe, if_pos rfl] at h1 h2 ⊢
            exact ih bs cs h1 h2
          · simp only [lexLe, if_pos rfl] at h1
            simp only [lexLe, if_neg hbc] at h2 ⊢
            exact h2
        · by_cases hbc : b = c
          · subst hbc
            simp only [lexLe, if_neg hab] at h1 ⊢
            exact h1
          · simp only [lexLe, if_neg hab] at h1
            simp only [lexLe, if_neg hbc] at h2
            have hac : a < c := lt_trans (of_decide_eq_true h1) (of_decide_eq_true h2)
            simp only [lexLe, if_neg (ne_of_lt hac)]
            exact decide_eq_true hac

instance : IsTotal String pyLe :=
  ⟨fun s t => lexLe_total s.data t.data⟩

instance : IsTrans String pyLe :=
  ⟨fun s t u h1 h2 => lexLe_trans s.data t.data u.data h1 h2⟩

theorem assignRatings_length : ∀ (i : ℕ) (l : List Entry), (assignRatings i l).length = l.length := by
  intro i l
  induction l generalizing i with
  | nil => rfl
  | cons e t ih => simp [assignRatings, ih]

theorem assignRatings_map_rating :
    ∀ (i : ℕ) (l : List Entry), (assignRatings i l).map LBRow.rating = List.range' i l.length := by
  intro i l
  induction l generalizing i with
  | nil => rfl
  | cons e t ih => simp [assignRatings, ih, List.range'_succ]

theorem assignRatings_map_username :
    ∀ (i : ℕ) (l : List Entry), (assignRatings i l).map LBRow.username = l.map Entry.username := by
  intro i l
  induction l generalizing i with
  | nil => rfl
  | cons e t ih => simp [assignRatings, ih]

theorem mem_assignRatings {i : ℕ} {l : List Entry} {x : LBRow} (hx : x ∈ assignRatings i l) :
    ∃ e ∈ l, x.total_score = e.total_score := by
  induction l generalizing i with
  | nil => simp [assignRatings] at hx
  | cons e t ih =>
    rcases List.mem_cons.1 (by simpa [assignRatings] using hx) with rfl | hx'
    · exact ⟨e, List.mem_cons_self _ _, rfl⟩
    · obtain ⟨e', he', h⟩ := ih hx'
      exact ⟨e', List.mem_cons_of_mem _ he', h⟩

theorem sort_values_desc_perm (l : List Entry) : List.Perm (sort_values_desc l) l :=
  (List.reverse_perm _).trans (List.perm_insertionSort scoreLE l)

theorem usernames_sorted_nodup (df : List Row) : (usernames_sorted df).Nodup :=
  (List.perm_insertionSort pyLe _).symm.nodup (List.nodup_dedup _)

/-- Claim C4: the claim says the durable artifact's first column is
`rank`; in the code it is `rating` (transform.py lines 70-72). -/
theorem c4_counterexample :
    leaderboard_columns ≠ ["rank", "username", "lectures", "total_score"] ∧
      leaderboard_columns = ["rating", "username", "lectures", "total_score"] :=
  ⟨by decide, rfl⟩

/-- Claim C4 (amended): the artifact has exactly the columns rating,
username, lectures, total_score; its rating values are the contiguous
integers 1..N in row order (hence sorted ascending), its usernames are
pairwise distinct, and there is one row for exactly each distinct
username of the cleaned deduplicated input. -/
theorem c4_amended_artifact_shape :
    ∀ df : List Row,
      leaderboard_columns = ["rating", "username", "lectures", "total_score"] ∧
        (pipeline df).map LBRow.rating = List.range' 1 (pipeline df).length ∧
        ((pipeline df).map LBRow.username).Nodup ∧
        ∀ u : String,
          u ∈ (pipeline df).map LBRow.username ↔
            u ∈ (remove_duplicates (clean_data df)).map Row.username := by
  intro df
  have hpip :
      pipeline df
        = assignRatings 1
            (sort_values_desc (groupby_username (remove_duplicates (clean_data df)))) := rfl
  have hmapu :
      (pipeline df).map LBRow.username
        = (sort_values_desc (groupby_username (remove_duplicates (clean_data df)))).map
            Entry.username := by
    rw [hpip, assignRatings_map_username]
  have hgu :
      (groupby_username (remove_duplicates (clean_data df))).map Entry.username
        = usernames_sorted (remove_duplicates (clean_data df)) := by
    unfold groupby_username
    rw [List.map_map]
    exact List.map_id _
  have hperm :
      List.Perm ((pipeline df).map LBRow.username)
        (usernames_sorted (remove_duplicates (clean_data df))) := by
    rw [hmapu, ← hgu]
    exact (sort_values_desc_perm _).map Entry.username
  refine ⟨rfl, ?_, ?_, ?_⟩
  · rw [hpip, assignRatings_map_rating, ← assignRatings_length 1
      (sort_values_desc (groupby_username (remove_duplicates (clean_data df))))]
  · exact hperm.symm.nodup (usernames_sorted_nodup _)
  · intro u
    rw [hperm.mem_iff]
    unfold usernames_sorted
    rw [(List.perm_insertionSort pyLe _).mem_iff, List.mem_dedup]

theorem sum_filterMap_score_nonneg :
    ∀ l : List Row, (∀ r ∈ l, ∀ q : ℤ, r.score = some q → 0 ≤ q) →
      0 ≤ (l.filterMap Row.score).sum := by
  intro l
  induction l with
  | nil => intro _; simp
  | cons r t ih =>
    intro h
    rw [List.filterMap_cons]
    cases hr : r.score with
    | none =>
      exact ih (fun s hs => h s (List.mem_cons_of_mem _ hs))
    | some q =>
      rw [List.sum_cons]
      exact add_nonneg (h r (List.mem_cons_self _ _) q hr)
        (ih (fun s hs => h s (List.mem_cons_of_mem _ hs)))

/-- Claim C5: the claim says every produced entry has
lectures_completed at least 1 and total_score at least 0.  A row whose
lecture fails to parse and whose score parses to -5 survives to the
leaderboard as an entry with 0 distinct lectures and total_score -5,
violating both bounds. -/
theorem c5_counterexample :
    pipeline [⟨"x", none, some (-5)⟩] = [⟨1, "x", 0, -5⟩] ∧
      ¬(1 ≤ (⟨1, "x", 0, -5⟩ : LBRow).lectures) ∧
      ¬((0 : ℤ) ≤ (⟨1, "x", 0, -5⟩ : LBRow).total_score) := by
  exact ⟨by decide, by decide, by decide⟩

/-- Claim C5 (amended): lectures_completed can be 0 (a student whose
lecture cells all fail parsing is not dropped), and total_score is
nonnegative provided every parsed score of the input batch is
nonnegative (nothing clamps negative scores). -/
theorem c5_amended_nonneg :
    ∀ df : List Row, (∀ r ∈ df, ∀ q : ℤ, r.score = some q → 0 ≤ q) →
      ∀ e ∈ pipeline df, 0 ≤ e.total_score := by
  intro df h e he
  obtain ⟨e', he', hts⟩ := mem_assignRatings he
  have he'' : e' ∈ groupby_username (remove_duplicates (clean_data df)) :=
    (sort_values_desc_perm _).subset he'
  obtain ⟨u, _, hu⟩ := List.mem_map.1 he''
  rw [hts, ← hu]
  apply sum_filterMap_score_nonneg
  intro r hr q hq
  have hr1 : r ∈ remove_duplicates (clean_data df) := List.mem_of_mem_filter hr
  have hr2 : r ∈ clean_data df := mem_of_mem_remove_duplicates hr1
  obtain ⟨r0, hr0, hr0e⟩ := List.mem_map.1 hr2
  apply h r0 hr0 q
  rw [← hr0e] at hq
  exact hq

theorem c5_amended_nonneg_witness : 0 ≤ (⟨1, "a", 1, 5⟩ : LBRow).total_score :=
  c5_amended_nonneg [⟨"a", some 1, some 5⟩]
    (by
      intro r hr q hq
      rw [List.mem_singleton] at hr
      subst hr
      have h5 : some (5 : ℤ) = some q := hq
      injection h5 with h
      omega)
    ⟨1, "a", 1, 5⟩ (by decide)

theorem pdfRowPositions_length : ∀ (n : ℕ) (s : ℕ × ℚ), (pdfRowPositions n s).length = n := by
  intro n
  induction n with
  | zero => intro s; rfl
  | succ m ih => intro s; simp [pdfRowPositions, ih]

theorem pdfStep_bounds (s : ℕ × ℚ) (_h1 : 70 ≤ s.2) (h2 : s.2 ≤ page_h - 70) :
    70 ≤ (pdfStep s).2 ∧ (pdfStep s).2 ≤ page_h - 70 := by
  rw [pdfStep]
  by_cases h : s.2 - 24 < 70
  · rw [if_pos h]
    refine ⟨by norm_num [page_h], le_refl _⟩
  · rw [if_neg h]
    refine ⟨not_lt.1 h, ?_⟩
    show s.2 - 24 ≤ page_h - 70
    linarith

theorem pdfRowPositions_bounds :
    ∀ (n : ℕ) (s : ℕ × ℚ), 70 ≤ s.2 → s.2 ≤ page_h - 70 →
      ∀ pr ∈ pdfRowPositions n s, 70 ≤ pr.2 ∧ pr.2 ≤ page_h - 70 := by
  intro n
  induction n with
  | zero => intro s _ _ pr hpr; simp [pdfRowPositions] at hpr
  | succ m ih =>
    intro s h1 h2 pr hpr
    rcases List.mem_cons.1 (by simpa [pdfRowPositions] using hpr) with rfl | hpr'
    · exact ⟨h1, h2⟩
    · obtain ⟨hb1, hb2⟩ := pdfStep_bounds s h1 h2
      exact ih (pdfStep s) hb1 hb2 pr hpr'

/-- Claim C7: the claim says no per-lecture row is ever omitted from the
image artifact.  The PNG canvas is a fixed 850 x 1200 image with no
pagination: the 24th row is drawn at y = 1216, entirely below the
canvas bottom at 1200, and PIL silently clips it, so it is omitted. -/
theorem c7_counterexample :
    png_row_y 23 = 1216 ∧ png_H = 1200 ∧ ¬png_row_visible 23 :=
  ⟨rfl, rfl, by decide⟩

/-- Claim C7 (amended): the PDF renderer paginates as the claim states -
every one of the n rows is drawn, always with its cursor inside the
printable extent [70, page_h - 70], and whenever the cursor would pass
below 70 a new page starts with the cursor reset to page_h - 70 - but
the PNG renderer has a fixed-height canvas and every row from the 24th
on lies wholly outside it and is clipped away. -/
theorem c7_amended_pagination :
    (∀ n : ℕ, (generate_student_report_pdf_rows n).length = n) ∧
      (∀ n : ℕ, ∀ pr ∈ generate_student_report_pdf_rows n, 70 ≤ pr.2 ∧ pr.2 ≤ page_h - 70) ∧
      (∀ (p : ℕ) (y : ℚ), y - 24 < 70 → pdfStep (p, y) = (p + 1, page_h - 70)) ∧
      (∀ i : ℕ, 23 ≤ i → ¬png_row_visible i) := by
  refine ⟨fun n => pdfRowPositions_length n _, fun n => pdfRowPositions_bounds n _ ?_ ?_, ?_, ?_⟩
  · norm_num [pdf_y0, page_h]
  · norm_num [pdf_y0, page_h]
  · intro p y h
    simp [pdfStep, h]
  · intro i hi
    simp only [png_row_visible, png_row_y, png_H, not_lt]
    omega

theorem c7_amended_pagination_witness :
    (generate_student_report_pdf_rows 30).length = 30 ∧
      (70 ≤ pdf_y0 ∧ pdf_y0 ≤ page_h - 70) ∧
      pdfStep (0, 90) = (1, page_h - 70) ∧
      ¬png_row_visible 30 :=
  ⟨c7_amended_pagination.1 30,
    c7_amended_pagination.2.1 1 (0, pdf_y0)
      (by simp [generate_student_report_pdf_rows, pdfRowPositions]),
    c7_amended_pagination.2.2.1 0 90 (by norm_num),
    c7_amended_pagination.2.2.2 30 (by norm_num)⟩

/-- Claim C8: the claim says each bar renderer computes the filled width
as round(track_width * clamped_score / 100).  The PNG renderer instead
truncates: at score 13 it fills int(520 * 0.13) = 67 pixels where the
claimed formula gives round(67.6) = 68. -/
theorem c8_counterexample :
    png_filled_w 13 = 67 ∧
      roundHalfEvenQ ((bar_w_png : ℚ) * 13 / 100) = 68 ∧
      (67 : ℕ) ≠ 68 :=
  ⟨by decide, by norm_num [roundHalfEvenQ, bar_w_png], by decide⟩

/-- Claim C8 (amended): both renderers clamp the score to [0, 100]; the
dashboard bar rounds (half to even, Python round) while the PNG bar
truncates.  Score 0 gives an empty bar, score 100 a full track, and
score 50 exactly half the track in both renderers; the filled width
never exceeds the track. -/
theorem c8_amended_bar_geometry :
    build_solid_bar_filled 0 = 0 ∧
      build_solid_bar_filled 100 = total_blocks ∧
      2 * build_solid_bar_filled 50 = total_blocks ∧
      png_filled_w 0 = 0 ∧
      png_filled_w 100 = bar_w_png ∧
      2 * png_filled_w 50 = bar_w_png ∧
      build_solid_bar_filled 25 = 8 ∧
      build_solid_bar_filled 75 = 26 ∧
      ∀ s : ℤ, build_solid_bar_filled s ≤ total_blocks ∧ png_filled_w s ≤ bar_w_png := by
  refine ⟨by decide, by decide, by decide, by decide, by decide, by decide, by decide, by decide,
    ?_⟩
  intro s
  have h1 : (clamp100 s).toNat ≤ 100 := by
    have h2 : clamp100 s ≤ (100 : ℤ) := max_le (by norm_num) (min_le_left _ _)
    omega
  constructor
  · dsimp only [build_solid_bar_filled, total_blocks]
    split_ifs <;> omega
  · dsimp only [png_filled_w, bar_w_png]
    omega

theorem charMatches_eq {p : Char} (h : p ≠ '.') (c : Char) : charMatches p c = (c == p) := by
  unfold charMatches
  cases hpc : p == '.' with
  | false => rw [Bool.false_or]; exact Bool.beq_comm
  | true => exact absurd (eq_of_beq hpc) h

theorem startsWithRe_eq :
    ∀ hs ps : List Char, '.' ∉ ps → startsWithRe hs ps = startsWithL hs ps := by
  intro hs
  induction hs with
  | nil => intro ps _; cases ps <;> rfl
  | cons c hs ih =>
    intro ps hp
    cases ps with
    | nil => rfl
    | cons p ps =>
      have hp1 : p ≠ '.' := by
        intro h
        apply hp
        rw [← h]
        exact List.mem_cons_self _ _
      simp only [startsWithRe, startsWithL,
        charMatches_eq hp1, ih ps (fun hmem => hp (List.mem_cons_of_mem _ hmem))]

theorem containsRe_eq :
    ∀ hs ps : List Char, '.' ∉ ps → containsRe hs ps = containsSub hs ps := by
  intro hs
  induction hs with
  | nil => intro ps _; rfl
  | cons c hs ih =>
    intro ps hp
    simp only [containsRe, containsSub, startsWithRe_eq _ _ hp, ih ps hp]

/-- Claim C10: the claim says the profile is produced for the first row
whose username the stripped query matches as a case-insensitive
substring.  But `str.contains` interprets the query as a regular
expression (`regex=True` is the pandas default): with usernames
jxsmith (rank 1), j.smith (rank 2), j.smithy (rank 3) and query
"j.smith", more than one username is a substring match (ranks 2 and 3),
yet the dot matches the x of jxsmith, so the code selects rank 1 -
a row that is not a substring match at all. -/
theorem c10_counterexample :
    ((exRe.filter (fun r => str_substring_ci r.username (stripStr "j.smith"))).map
        AppRow.rating = [2, 3]) ∧
      search_student exRe "j.smith" = some ⟨1, "jxsmith", 3, 250⟩ ∧
      str_substring_ci "jxsmith" "j.smith" = false :=
  ⟨by decide, by decide, by decide⟩

/-- Claim C10 (amended): for queries whose stripped text contains no
regex metacharacter (so the pattern is a regex literal and regex
matching coincides with case-insensitive substring containment), when
more than one username matches, the student section uses
matches.iloc[0], the first matching row of the rating-sorted dataframe;
its KPIs and therefore both generated reports are built from exactly
that row, and every other matching row has a rating greater than or
equal to the chosen one.  Queries with metacharacters are interpreted
as regular expressions and can select different rows (or raise on a
malformed pattern). -/
theorem c10_amended_first_match :
    ∀ (df : List AppRow) (q : String) (m : AppRow) (ms : List AppRow),
      df.Pairwise ratingLE →
      stripStr q ≠ "" →
      (∀ c ∈ lowerChars (stripStr q), c ∉ regexMetachars) →
      df.filter (fun r => str_substring_ci r.username (stripStr q)) = m :: ms →
      ms ≠ [] →
      search_student df q = some m ∧
        search_section df q = some (student_view m) ∧
        ∀ x ∈ df, str_substring_ci x.username (stripStr q) = true → m.rating ≤ x.rating := by
  intro df q m ms hsort hq hmeta hm _
  have hdot : '.' ∉ lowerChars (stripStr q) := fun hc => hmeta '.' hc (by decide)
  have heq : ∀ r : AppRow,
      str_contains_ci r.username (stripStr q) = str_substring_ci r.username (stripStr q) :=
    fun r => containsRe_eq (lowerChars r.username) (lowerChars (stripStr q)) hdot
  have hmatches :
      search_matches df q
        = df.filter (fun r => str_substring_ci r.username (stripStr q)) := by
    unfold search_matches
    rw [funext heq]
  have hstu : search_student df q = some m := by
    rw [search_student, if_neg hq, hmatches, hm]
    rfl
  refine ⟨hstu, ?_, ?_⟩
  · rw [search_section, hstu]
    rfl
  · have hpw :
        (df.filter (fun r => str_substring_ci r.username (stripStr q))).Pairwise ratingLE :=
      List.Pairwise.sublist (List.filter_sublist df) hsort
    intro x hx hxm
    have hxf : x ∈ df.filter (fun r => str_substring_ci r.username (stripStr q)) :=
      List.mem_filter.2 ⟨hx, hxm⟩
    rw [hm] at hpw hxf
    rcases List.mem_cons.1 hxf with rfl | hx'
    · exact le_refl _
    · exact (List.pairwise_cons.1 hpw).1 x hx'

theorem c10_amended_first_match_witness :
    search_student exSearch "AN " = some ⟨1, "Anna", 3, 250⟩ ∧
      search_section exSearch "AN " = some (student_view ⟨1, "Anna", 3, 250⟩) ∧
      (⟨1, "Anna", 3, 250⟩ : AppRow).rating ≤ (⟨2, "anatoly", 2, 180⟩ : AppRow).rating := by
  have h := c10_amended_first_match exSearch "AN " ⟨1, "Anna", 3, 250⟩ [⟨2, "anatoly", 2, 180⟩]
    (by simp [exSearch, List.pairwise_cons, ratingLE]) (by decide) (by decide) (by decide)
    (by decide)
  exact ⟨h.1, h.2.1, h.2.2 ⟨2, "anatoly", 2, 180⟩ (by decide) (by decide)⟩
